import Mathlib

/-!
Verification of the normalization-and-ledger-upsert subsystem of
src/api/index.py (a Flask app maintaining a date-keyed CSV ledger of
daily wellness metrics in blob storage).

The embedding models a CSV row as a record whose slowly-changing columns
(waist and body composition) are `Option String` values: `none` models a
dict key that is absent (possible only for rows parsed from a legacy CSV
whose header lacks the column), `some s` models a key present with string
value `s` (csv.DictReader yields strings; the empty string is the blank
cell).  All other columns are replaced wholesale by the stats upsert and
never consulted by the merge logic, so they are abstracted into the
single opaque field `fresh`.
-/

namespace Garmin

/-- One CSV row (one DailyRecord) of the ledger, as read by
csv.DictReader.  `date` is the date key (column `date`); the eight
slowly-changing columns are kept separately because the upsert's
preservation rules consult them; every remaining column is bundled into
`fresh`. -/
structure Row where
  date : String
  waistInches : Option String
  waistDate : Option String
  weightKg : Option String
  weightLbs : Option String
  bodyFatPercent : Option String
  bodyWaterPercent : Option String
  muscleMassKg : Option String
  bodyCompDate : Option String
  fresh : String
deriving DecidableEq, Repr

/-- Python truthiness-plus-strip test used by the upsert:
`if existing and str(existing).strip():` — for a string value this holds
iff the string is nonempty and `strip()` leaves something, i.e. some
character is not whitespace; a missing key (None) is falsy. -/
def nonBlank : Option String → Bool
  | none => false
  | some s => !(s == "") && !(s.data.all Char.isWhitespace)

/-- First preservation block of the stats upsert (src/api/index.py
lines 739-743): copy the existing waist pair into the freshly assembled
`csv_row` (whose `date` is `today`) when the existing `waistInches` is
non-blank.  The date-companion default mirrors
`row.get('waistDate', today)`. -/
def mergeWaist (existing new : Row) : Row :=
  if nonBlank existing.waistInches then
    { new with
        waistInches := existing.waistInches,
        waistDate := some (existing.waistDate.getD new.date) }
  else new

/-- Second preservation block (lines 744-752), run after the waist
block: copy the existing six body-composition columns when the existing
`weightKg` is non-blank, with the `row.get(field, '')` /
`row.get('bodyCompDate', today)` defaults of the source. -/
def mergeRow (existing new : Row) : Row :=
  if nonBlank existing.weightKg then
    { mergeWaist existing new with
        weightKg := existing.weightKg,
        weightLbs := some (existing.weightLbs.getD ""),
        bodyFatPercent := some (existing.bodyFatPercent.getD ""),
        bodyWaterPercent := some (existing.bodyWaterPercent.getD ""),
        muscleMassKg := some (existing.muscleMassKg.getD ""),
        bodyCompDate := some (existing.bodyCompDate.getD new.date) }
  else mergeWaist existing new

/-- The replace-or-append loop of the stats upsert (lines 736-758): the
first row whose `date` equals the new row's date is replaced by the
merged row and the scan stops; if no row matches, the new row is
appended at the end. -/
def replaceFirst : List Row → Row → List Row
  | [], new => [new]
  | x :: xs, new =>
    if x.date = new.date then mergeRow x new :: xs
    else x :: replaceFirst xs new

/-- The sort order of `csv_rows.sort(key=lambda x: x.get('date', ''))`:
compare rows by their date string. -/
def byDate (a b : Row) : Prop := a.date ≤ b.date

instance : DecidableRel byDate := fun a b =>
  inferInstanceAs (Decidable (a.date ≤ b.date))

instance : IsTotal Row byDate := ⟨fun a b => le_total a.date b.date⟩

instance : IsTrans Row byDate := ⟨fun _ _ _ h h2 => le_trans h h2⟩

/-- `csv_rows.sort(key=...)` — Python list.sort is a stable sort by the
date key; any stable sort computes the same list, so insertion sort (
which is stable for a total preorder) denotes it. -/
def sortRows (rows : List Row) : List Row := List.insertionSort byDate rows

/-- The whole ledger upsert of the stats operation (lines 736-761):
merge-preserving replace-or-append followed by the sort by date key. -/
def upsertStats (rows : List Row) (new : Row) : List Row :=
  sortRows (replaceFirst rows new)

/-- `save_waist`: in-place update of today's row (lines 790-795): only
the waist pair of the matched row is overwritten. -/
def setWaist (r : Row) (w today : String) : Row :=
  { r with waistInches := some w, waistDate := some today }

/-- `save_waist`: the fresh row created when no row for today exists
(lines 798-802): every CSV header is set to the empty string, then date
and the waist pair are filled in. -/
def newWaistRow (today w : String) : Row :=
  { date := today
    waistInches := some w
    waistDate := some today
    weightKg := some ""
    weightLbs := some ""
    bodyFatPercent := some ""
    bodyWaterPercent := some ""
    muscleMassKg := some ""
    bodyCompDate := some ""
    fresh := "" }

/-- The find-or-create loop of `save_waist` (lines 789-803). -/
def waistReplaceFirst : List Row → String → String → List Row
  | [], today, w => [newWaistRow today w]
  | x :: xs, today, w =>
    if x.date = today then setWaist x w today :: xs
    else x :: waistReplaceFirst xs today w

/-- The ledger update of `save_waist` (lines 789-806): find-or-create
today's row, then sort by date key. -/
def upsertWaist (rows : List Row) (today w : String) : List Row :=
  sortRows (waistReplaceFirst rows today w)

/-- One ledger-mutating operation: either the stats upsert with an
assembled row, or the waist upsert with today's date and a serialized
measurement. -/
inductive Op where
  | stats (r : Row)
  | waist (today w : String)

/-- Apply one operation to the stored ledger. -/
def applyOp (rows : List Row) : Op → List Row
  | .stats r => upsertStats rows r
  | .waist today w => upsertWaist rows today w

/-- Apply a sequence of operations, oldest first. -/
def applyOps (rows : List Row) (ops : List Op) : List Row :=
  ops.foldl applyOp rows

/-! ### Numeric parsing

The ledger's cells are CSV text.  `parseDec` models Python `float()`
restricted to the plain decimal literals this system writes (an
optional minus sign, digits, an optional fractional part); on any other
string it returns `none`, where Python would raise — the
well-formedness predicates below confine the theorems to inputs where
the two agree. -/

/-- Numeric value of a digit string (most significant first). -/
def natOfDigits (cs : List Char) : Nat :=
  cs.foldl (fun n c => 10 * n + (c.toNat - 48)) 0

/-- All characters are decimal digits. -/
def allDigits (cs : List Char) : Bool := cs.all Char.isDigit

/-- Parse a plain decimal literal to a rational: digits before and
after the point are read as one integer scaled by the power of ten of
the fractional length, with an optional leading minus sign. -/
def parseDec (s : String) : Option ℚ :=
  let signed : Bool × List Char :=
    match s.data with
    | '-' :: t => (true, t)
    | t => (false, t)
  let mag : Option (Nat × Nat) :=
    match signed.2.splitOn '.' with
    | [ip] =>
        if ip ≠ [] && allDigits ip then some (natOfDigits ip, 1) else none
    | [ip, fp] =>
        if ip ≠ [] && fp ≠ [] && allDigits ip && allDigits fp then
          some (natOfDigits (ip ++ fp), 10 ^ fp.length)
        else none
    | _ => none
  mag.map (fun nd =>
    mkRat (if signed.1 then -(nd.1 : Int) else (nd.1 : Int)) nd.2)

/-- `float(row.get(field, 0))` on a well-formed cell: 0 when the key is
absent, the parsed value when present. -/
def pyFloat (o : Option String) : ℚ :=
  match o with
  | none => 0
  | some s => (parseDec s).getD 0

/-! ### Carry-forward resolvers (src/api/index.py lines 159-181) -/

/-- The record `get_last_body_composition` returns. -/
structure BodyComp where
  weightKg : ℚ
  weightLbs : ℚ
  bodyFatPercent : ℚ
  bodyWaterPercent : ℚ
  muscleMassKg : ℚ
  date : String
deriving DecidableEq, Repr

/-- The scan condition
`row.get('weightKg') and float(row.get('weightKg', 0)) > 0`:
the cell is present, nonempty (string truthiness) and parses positive. -/
def hasPosWeight (r : Row) : Bool :=
  match r.weightKg with
  | none => false
  | some s => !(s == "") && decide ((0 : ℚ) < (parseDec s).getD 0)

/-- The dict built for a matched row: parsed floats plus the recorded
source date `row.get('bodyCompDate', row.get('date', ''))`. -/
def bodyCompOfRow (r : Row) : BodyComp :=
  { weightKg := pyFloat r.weightKg
    weightLbs := pyFloat r.weightLbs
    bodyFatPercent := pyFloat r.bodyFatPercent
    bodyWaterPercent := pyFloat r.bodyWaterPercent
    muscleMassKg := pyFloat r.muscleMassKg
    date := r.bodyCompDate.getD r.date }

/-- Scan a list front-to-back for the first matching row. -/
def lastBodyComp : List Row → Option BodyComp
  | [] => none
  | r :: rs => if hasPosWeight r then some (bodyCompOfRow r) else lastBodyComp rs

/-- `get_last_body_composition(rows)` (lines 159-171): iterate
`reversed(rows)` and return the first row with a present, positive
weight; `None` if there is none. -/
def get_last_body_composition (rows : List Row) : Option BodyComp :=
  lastBodyComp rows.reverse

/-- The record `get_last_waist` returns. -/
structure WaistVal where
  inches : ℚ
  date : String
deriving DecidableEq, Repr

/-- `row.get('waistInches') and float(row.get('waistInches', 0)) > 0`. -/
def hasPosWaist (r : Row) : Bool :=
  match r.waistInches with
  | none => false
  | some s => !(s == "") && decide ((0 : ℚ) < (parseDec s).getD 0)

/-- The dict built for a matched row of `get_last_waist`. -/
def waistOfRow (r : Row) : WaistVal :=
  { inches := pyFloat r.waistInches
    date := r.waistDate.getD r.date }

/-- Scan a list front-to-back for the first row with a positive waist. -/
def lastWaistScan : List Row → Option WaistVal
  | [] => none
  | r :: rs => if hasPosWaist r then some (waistOfRow r) else lastWaistScan rs

/-- `get_last_waist(rows)` (lines 173-181). -/
def get_last_waist (rows : List Row) : Option WaistVal :=
  lastWaistScan rows.reverse

/-! ### Sleep normalizer (src/api/index.py lines 304-312) -/

/-- A sleep-stage label, as the spec groups intervals. -/
inductive Stage where
  | deep | light | rem | awake
deriving DecidableEq, Repr

/-- One entry of the payload's interval list (`sleepLevels`): a start
and end timestamp in seconds and a stage label.  The code never reads
this list; it is in the model so that the spec's fallback can be stated
against the same payload. -/
structure SleepInterval where
  startSec : Int
  endSec : Int
  stage : Stage
deriving DecidableEq, Repr

/-- The nested `dailySleepDTO` sub-object; each direct stage-duration
field is `none` when the key is absent or null (both take the 0 default
through `.get(k, 0) or 0`). -/
structure SleepDTO where
  deepSleepSeconds : Option Int
  lightSleepSeconds : Option Int
  remSleepSeconds : Option Int
  awakeSleepSeconds : Option Int
deriving DecidableEq, Repr

/-- A sleep payload: the optional nested DTO plus the interval list. -/
structure SleepPayload where
  dailySleepDTO : Option SleepDTO
  sleepLevels : List SleepInterval
deriving DecidableEq, Repr

/-- The four normalized stage durations. -/
structure SleepStages where
  deep : Int
  light : Int
  rem : Int
  awake : Int
deriving DecidableEq, Repr

/-- `x.get(k, 0) or 0` on an integer field. -/
def orZero (o : Option Int) : Int := o.getD 0

/-- The sleep-stage extraction the code performs (lines 304-312):
`sleep_dto = sleep_data.get('dailySleepDTO', {}) or {}` then each stage
duration is read directly off the DTO with a 0 default.  Nothing else
of the payload is consulted. -/
def sleepStages (p : SleepPayload) : SleepStages :=
  let dto := p.dailySleepDTO.getD ⟨none, none, none, none⟩
  { deep := orZero dto.deepSleepSeconds
    light := orZero dto.lightSleepSeconds
    rem := orZero dto.remSleepSeconds
    awake := orZero dto.awakeSleepSeconds }

/-- Modelled from the spec: total (end − start) seconds of the
payload's intervals carrying the given stage label (the interval
summation src/api/index.py does not contain). -/
def stageSum (p : SleepPayload) (st : Stage) : Int :=
  (p.sleepLevels.filter (fun i => i.stage = st)).foldl
    (fun acc i => acc + (i.endSec - i.startSec)) 0

/-- Modelled from the spec: read each stage duration from the direct
DTO field first and fall back to interval summation only when that
direct field is absent. -/
def sleepStagesSpec (p : SleepPayload) : SleepStages :=
  let dto := p.dailySleepDTO.getD ⟨none, none, none, none⟩
  { deep := dto.deepSleepSeconds.getD (stageSum p .deep)
    light := dto.lightSleepSeconds.getD (stageSum p .light)
    rem := dto.remSleepSeconds.getD (stageSum p .rem)
    awake := dto.awakeSleepSeconds.getD (stageSum p .awake) }

/-! ### Body battery normalizer (src/api/index.py lines 321-342) -/

/-- One per-device snapshot of the body-battery payload.  Each entry of
`bodyBatteryValuesArray` is a (timestamp, level) pair whose level may be
null. -/
structure BBSnap where
  charged : Option Int
  drained : Option Int
  bodyBatteryValuesArray : List (Int × Option Int)
deriving DecidableEq, Repr

/-- The normalized body-battery block of the response. -/
structure BBOut where
  current : Int
  highest : Int
  lowest : Int
  charged : Int
  drained : Int
deriving DecidableEq, Repr

/-- The non-null levels of the first snapshot's values array, in order
(the comprehension `[item[1] for item in values_array if ... item[1] is
not None]`). -/
def bbLevels (body_battery : List BBSnap) : List Int :=
  match body_battery with
  | [] => []
  | s :: _ => s.bodyBatteryValuesArray.filterMap Prod.snd

/-- The body-battery extraction (lines 321-342): defaults current=0,
highest=0, lowest=100; the first snapshot supplies charged/drained and
the values array; when some non-null level exists, highest/lowest are
max/min of the non-null levels and current is the last non-null level;
finally a lowest that still equals 100 is reset to 0. -/
def normBodyBattery (body_battery : List BBSnap) : BBOut :=
  let cd : Int × Int :=
    match body_battery with
    | [] => (0, 0)
    | s :: _ => (s.charged.getD 0, s.drained.getD 0)
  let hlc : Int × Int × Int :=
    match bbLevels body_battery with
    | [] => (0, 100, 0)
    | x :: xs => (xs.foldl max x, xs.foldl min x, (x :: xs).getLast (List.cons_ne_nil x xs))
  let lowest := if hlc.2.1 = 100 then 0 else hlc.2.1
  { current := hlc.2.2
    highest := hlc.1
    lowest := lowest
    charged := cd.1
    drained := cd.2 }

/-! ### Stress normalizer (src/api/index.py lines 344-363) -/

/-- The four bucketed stress durations, in seconds. -/
structure StressOut where
  rest : Int
  low : Int
  med : Int
  high : Int
deriving DecidableEq, Repr

/-- Processing of one (timestamp, level) sample: null or negative
levels contribute nothing; otherwise exactly one bucket gains 180
seconds, chosen by the thresholds 25/50/75. -/
def stressStep (acc : StressOut) (item : Int × Option Int) : StressOut :=
  match item.2 with
  | none => acc
  | some level =>
    if level < 0 then acc
    else if level ≤ 25 then { acc with rest := acc.rest + 180 }
    else if level ≤ 50 then { acc with low := acc.low + 180 }
    else if level ≤ 75 then { acc with med := acc.med + 180 }
    else { acc with high := acc.high + 180 }

/-- The bucketing loop over `stressValuesArray` (lines 344-363). -/
def stressBuckets (vals : List (Int × Option Int)) : StressOut :=
  vals.foldl stressStep ⟨0, 0, 0, 0⟩

/-! ### HRV normalizer (src/api/index.py lines 417-443) -/

/-- The `baseline` sub-object. -/
structure HrvBaseline where
  balancedLow : Option Int
  balancedHigh : Option Int
deriving DecidableEq, Repr

/-- The nested `hrvSummary` sub-object. -/
structure HrvSummaryObj where
  lastNightAvg : Option Int
  status : Option String
  weeklyAvg : Option Int
  baseline : Option HrvBaseline
deriving DecidableEq, Repr

/-- An HRV payload (dict shape).  `hrvSummary = none` models the key
being absent or mapping to an empty dict — both fail the
`isinstance(hrv_summary, dict) and hrv_summary` truthiness test and
route extraction to the legacy top-level fields. -/
structure HrvPayload where
  hrvSummary : Option HrvSummaryObj
  lastNightAvg : Option Int
  status : Option String
  weeklyAvg : Option Int
  baseline : Option HrvBaseline
deriving DecidableEq, Repr

/-- The normalized HRV block. -/
structure HrvOut where
  average : Int
  status : String
  balanced : Int
  unbalanced : Int
deriving DecidableEq, Repr

/-- `x.get(k, '') or ''` on a string field. -/
def orEmpty (o : Option String) : String := o.getD ""

/-- The HRV extraction (lines 417-443): read average/status/baseline
from `hrvSummary` when that is a nonempty dict, else from the top
level; then classify average against the baseline interval whose bounds
default to 0, setting exactly one of balanced/unbalanced to 1. -/
def normHrv (p : HrvPayload) : HrvOut :=
  let asb : Int × String × Option HrvBaseline :=
    match p.hrvSummary with
    | some s => (orZero s.lastNightAvg, orEmpty s.status, s.baseline)
    | none => (orZero p.lastNightAvg, orEmpty p.status, p.baseline)
  let bl := asb.2.2.getD ⟨none, none⟩
  let low := orZero bl.balancedLow
  let high := orZero bl.balancedHigh
  if low ≤ asb.1 ∧ asb.1 ≤ high then ⟨asb.1, asb.2.1, 1, 0⟩
  else ⟨asb.1, asb.2.1, 0, 1⟩

/-! ### Ledger write and operation results (src/api/index.py lines
115-157, 763-766, 775-814) -/

/-- The environment `write_csv_to_blob` runs in: whether the blob token
is configured and whether the PUT of the new CSV object succeeds. -/
structure BlobEnv where
  tokenSet : Bool
  putOk : Bool
deriving DecidableEq, Repr

/-- `write_csv_to_blob(rows)` (lines 115-157): returns False when the
token is missing (write silently skipped) or the upload fails (all
exceptions are caught); True only on a successful upload. -/
def write_csv_to_blob (env : BlobEnv) : Bool :=
  if !env.tokenSet then false
  else if env.putOk then true else false

/-- The observable outcome of the stats operation's persistence tail:
HTTP status, the returned computed record, and the blob content after
the call. -/
structure StatsHttpResult where
  status : Nat
  body : Row
  stored : List Row
deriving DecidableEq, Repr

/-- The tail of `get_stats` (lines 736-766): upsert the assembled row
into the rows read from the blob, call `write_csv_to_blob` discarding
its result, and return `jsonify(response)` — HTTP 200 — regardless.
The blob keeps its old content when the write fails. -/
def get_stats_persist (stored : List Row) (csv_row : Row) (env : BlobEnv) :
    StatsHttpResult :=
  let csv_rows := upsertStats stored csv_row
  let ok := write_csv_to_blob env
  { status := 200
    body := csv_row
    stored := if ok then csv_rows else stored }

/-- A store operation `save_waist` actually performs against the blob:
a full read, or a full replace with the given rows. -/
inductive StoreEff where
  | read
  | write (rows : List Row)
deriving DecidableEq, Repr

/-- The HTTP outcome of `save_waist`. -/
inductive WaistResp where
  | ok (inches : ℚ) (today : String)
  | err (status : Nat)
deriving DecidableEq, Repr

/-- Serialization of the parsed measurement back to a CSV cell. -/
def qToString (q : ℚ) : String := toString q

/-- `save_waist` (lines 775-814), after `float(data.get('inches', 0))`
has produced `inches`: a non-positive measurement returns 400 before
any blob access; otherwise the ledger is read, today's row updated or
created, and the write attempted — success answers 200, a failed write
answers 500.  The second component lists the store operations
performed. -/
def save_waist (inches : ℚ) (today : String) (stored : List Row)
    (env : BlobEnv) : WaistResp × List StoreEff :=
  if inches ≤ 0 then (.err 400, [])
  else
    let csv_rows := upsertWaist stored today (qToString inches)
    if write_csv_to_blob env then (.ok inches today, [.read, .write csv_rows])
    else (.err 500, [.read])

/-- Replay a list of performed store operations over a starting blob
content. -/
def finalStore (stored : List Row) (effs : List StoreEff) : List Row :=
  effs.foldl (fun st e => match e with | .read => st | .write rows => rows) stored

/-! ### Auxiliary predicates -/

/-- A fully-specified assembled row: every slowly-changing CSV key is
present (its value may still be the empty string).  Every `csv_row`
built by `get_stats` and every row re-read from a CSV this system wrote
satisfies this. -/
def fullySpec (r : Row) : Bool :=
  r.waistInches.isSome && r.waistDate.isSome && r.weightKg.isSome &&
  r.weightLbs.isSome && r.bodyFatPercent.isSome && r.bodyWaterPercent.isSome &&
  r.muscleMassKg.isSome && r.bodyCompDate.isSome

/-- Pairwise-distinct date keys. -/
def NodupKeys (l : List Row) : Prop := (l.map Row.date).Nodup

/-- A cell on which Python `float(row.get(k, 0))` cannot raise: absent,
or a decimal literal. -/
def numCell (o : Option String) : Bool :=
  match o with
  | none => true
  | some s => (parseDec s).isSome

/-- A cell the guarded scan condition can evaluate without raising:
absent, blank, or a decimal literal. -/
def numOrBlankCell (o : Option String) : Bool :=
  match o with
  | none => true
  | some s => s == "" || (parseDec s).isSome

/-- Well-formedness of a row for `get_last_body_composition`: the
weight cell is blank or numeric, and when the scan condition matches
the row, the companion cells it then parses are numeric. -/
def bcWF (r : Row) : Bool :=
  numOrBlankCell r.weightKg &&
  (!(hasPosWeight r) ||
    (numCell r.weightLbs && numCell r.bodyFatPercent &&
     numCell r.bodyWaterPercent && numCell r.muscleMassKg))

/-- Well-formedness of a row for `get_last_waist`. -/
def waistWF (r : Row) : Bool := numOrBlankCell r.waistInches

/-- The membership test both upsert loops run: `row.get('date') == d`. -/
def dateIs (d : String) (y : Row) : Bool := decide (y.date = d)

/-! ### Concrete sample data for witnesses and counterexamples -/

/-- A fully-specified assembled `csv_row` for 2024-01-05 with fresh
body-composition data and (as `get_stats` always assembles it) blank
waist cells. -/
def demoStatsRow : Row :=
  { date := "2024-01-05"
    waistInches := some ""
    waistDate := some ""
    weightKg := some "80.5"
    weightLbs := some "177.5"
    bodyFatPercent := some "21.0"
    bodyWaterPercent := some "55.0"
    muscleMassKg := some "33.2"
    bodyCompDate := some "2024-01-05"
    fresh := "steps=1000" }

/-- An assembled `csv_row` for 2024-01-05 whose waist and
body-composition cells are all blank. -/
def demoEmptyRow : Row :=
  { date := "2024-01-05"
    waistInches := some ""
    waistDate := some ""
    weightKg := some ""
    weightLbs := some ""
    bodyFatPercent := some ""
    bodyWaterPercent := some ""
    muscleMassKg := some ""
    bodyCompDate := some ""
    fresh := "steps=2000" }

/-- A stored ledger row for 2024-01-05 carrying waist and
body-composition data from earlier writes. -/
def demoExistingRow : Row :=
  { date := "2024-01-05"
    waistInches := some "32.5"
    waistDate := some "2024-01-03"
    weightKg := some "80.5"
    weightLbs := some "177.5"
    bodyFatPercent := some "21.0"
    bodyWaterPercent := some "55.0"
    muscleMassKg := some "33.2"
    bodyCompDate := some "2024-01-02"
    fresh := "steps=1000" }

/-- The single-row ledger history of the carry-forward example: only
the date and a weight of 70.2 kg are recorded. -/
def demoHistoryRow : Row :=
  { date := "2024-01-01"
    waistInches := none
    waistDate := none
    weightKg := some "70.2"
    weightLbs := none
    bodyFatPercent := none
    bodyWaterPercent := none
    muscleMassKg := none
    bodyCompDate := none
    fresh := "" }

/-- A stress sample the claim buckets as rest: non-null level in
[0, 25]. -/
def restSample (item : Int × Option Int) : Bool :=
  match item.2 with
  | none => false
  | some l => decide (0 ≤ l) && decide (l ≤ 25)

/-- A stress sample the claim buckets as low: level in [26, 50]. -/
def lowSample (item : Int × Option Int) : Bool :=
  match item.2 with
  | none => false
  | some l => decide (26 ≤ l) && decide (l ≤ 50)

/-- A stress sample the claim buckets as medium: level in [51, 75]. -/
def medSample (item : Int × Option Int) : Bool :=
  match item.2 with
  | none => false
  | some l => decide (51 ≤ l) && decide (l ≤ 75)

/-- A stress sample the claim buckets as high: level above 75. -/
def highSample (item : Int × Option Int) : Bool :=
  match item.2 with
  | none => false
  | some l => decide (75 < l)

/-- The spec's synthetic stress series: 10 samples at level 10 followed
by 10 samples at level 90. -/
def stressSynthetic : List (Int × Option Int) :=
  List.replicate 10 ((0 : Int), some (10 : Int)) ++
    List.replicate 10 ((0 : Int), some (90 : Int))

/-- A sleep payload whose DTO has no direct stage fields but whose
interval list carries ten minutes of deep sleep. -/
def sleepCexPayload : SleepPayload :=
  { dailySleepDTO := some ⟨none, none, none, none⟩
    sleepLevels := [⟨0, 600, Stage.deep⟩] }

/-- A sleep payload with direct stage fields and a stray interval. -/
def sleepDirectPayload : SleepPayload :=
  { dailySleepDTO := some ⟨some 3600, some 7200, some 5400, some 600⟩
    sleepLevels := [⟨0, 999, Stage.deep⟩] }

/-- The same DTO as `sleepDirectPayload` with no intervals at all. -/
def sleepDirectPayloadNoIv : SleepPayload :=
  { dailySleepDTO := some ⟨some 3600, some 7200, some 5400, some 600⟩
    sleepLevels := [] }

/-- A body-battery payload whose only non-null level is 100 and whose
last pair carries a null level. -/
def bbCex : List BBSnap :=
  [⟨none, none, [((0 : Int), some (100 : Int)), ((1 : Int), none)]⟩]

/-- The spec's body-battery example series [[t0,20],[t1,80],[t2,55]]. -/
def bbExample : List BBSnap :=
  [⟨none, none, [((0 : Int), some (20 : Int)), ((1 : Int), some (80 : Int)),
    ((2 : Int), some (55 : Int))]⟩]

/-! ## Lemmas: the merge blocks -/

theorem mergeWaist_date (e n : Row) : (mergeWaist e n).date = n.date := by
  unfold mergeWaist
  split <;> rfl

theorem mergeRow_date (e n : Row) : (mergeRow e n).date = n.date := by
  unfold mergeRow
  split <;> simp [mergeWaist_date]

theorem mergeRow_idem (e r : Row) (h : fullySpec r = true) :
    mergeRow (mergeRow e r) r = mergeRow e r := by
  obtain ⟨rd, rwi, rwd, rwk, rlb, rbf, rbw, rmm, rbc, rfr⟩ := r
  simp only [fullySpec, Bool.and_eq_true, Option.isSome_iff_exists] at h
  obtain ⟨⟨⟨⟨⟨⟨⟨⟨wi, rfl⟩, wd, rfl⟩, wk, rfl⟩, lb, rfl⟩, bf, rfl⟩, bw, rfl⟩,
    mm, rfl⟩, bc, rfl⟩ := h
  by_cases h1 : nonBlank e.waistInches = true <;>
    by_cases h2 : nonBlank e.weightKg = true <;>
      by_cases h3 : nonBlank (some wi) = true <;>
        by_cases h4 : nonBlank (some wk) = true <;>
          simp [mergeRow, mergeWaist, h1, h2, h3, h4]

theorem mergeRow_self (r : Row) (h : fullySpec r = true) : mergeRow r r = r := by
  obtain ⟨rd, rwi, rwd, rwk, rlb, rbf, rbw, rmm, rbc, rfr⟩ := r
  simp only [fullySpec, Bool.and_eq_true, Option.isSome_iff_exists] at h
  obtain ⟨⟨⟨⟨⟨⟨⟨⟨wi, rfl⟩, wd, rfl⟩, wk, rfl⟩, lb, rfl⟩, bf, rfl⟩, bw, rfl⟩,
    mm, rfl⟩, bc, rfl⟩ := h
  by_cases h1 : nonBlank (some wi) = true <;>
    by_cases h2 : nonBlank (some wk) = true <;>
      simp [mergeRow, mergeWaist, h1, h2]

/-! ## Lemmas: stability of the sort for the first row at a date key -/

theorem find?_orderedInsert_pos (d : String) (x : Row) (hx : x.date = d) :
    ∀ l : List Row, (List.orderedInsert byDate x l).find? (dateIs d) = some x
  | [] => by simp [List.orderedInsert, List.find?, dateIs, hx]
  | b :: l => by
    by_cases hb : byDate x b
    · rw [List.orderedInsert_of_le byDate l hb]
      exact List.find?_cons_of_pos _ (by simp [dateIs, hx])
    · have hbd : ¬ b.date = d := fun hc => hb (le_of_eq (hx.trans hc.symm))
      have heq : List.orderedInsert byDate x (b :: l) =
          b :: List.orderedInsert byDate x l := by
        simp [List.orderedInsert, hb]
      rw [heq, List.find?_cons_of_neg _ (by simp [dateIs, hbd])]
      exact find?_orderedInsert_pos d x hx l

theorem find?_orderedInsert_neg (d : String) (x : Row) (hx : ¬ x.date = d) :
    ∀ l : List Row, (List.orderedInsert byDate x l).find? (dateIs d) =
      l.find? (dateIs d)
  | [] => by simp [List.orderedInsert, List.find?, dateIs, hx]
  | b :: l => by
    by_cases hb : byDate x b
    · rw [List.orderedInsert_of_le byDate l hb,
        List.find?_cons_of_neg _ (by simp [dateIs, hx])]
    · have heq : List.orderedInsert byDate x (b :: l) =
          b :: List.orderedInsert byDate x l := by
        simp [List.orderedInsert, hb]
      rw [heq]
      by_cases hbd : dateIs d b = true
      · rw [List.find?_cons_of_pos _ hbd, List.find?_cons_of_pos _ hbd]
      · rw [List.find?_cons_of_neg _ hbd, List.find?_cons_of_neg _ hbd]
        exact find?_orderedInsert_neg d x hx l

theorem find?_sortRows (d : String) :
    ∀ l : List Row, (sortRows l).find? (dateIs d) = l.find? (dateIs d)
  | [] => rfl
  | x :: l => by
    have hunf : sortRows (x :: l) = List.orderedInsert byDate x (sortRows l) := rfl
    by_cases hx : x.date = d
    · rw [hunf, find?_orderedInsert_pos d x hx,
        List.find?_cons_of_pos _ (by simp [dateIs, hx])]
    · rw [hunf, find?_orderedInsert_neg d x hx, find?_sortRows d l,
        List.find?_cons_of_neg _ (by simp [dateIs, hx])]

/-! ## Lemmas: the replace-or-append loops -/

theorem replaceFirst_append_of_none (r : Row) :
    ∀ l : List Row, l.find? (dateIs r.date) = none → replaceFirst l r = l ++ [r]
  | [], _ => rfl
  | x :: xs, h => by
    have hx : ¬ x.date = r.date := by
      intro hc
      rw [List.find?_cons_of_pos _ (by simp [dateIs, hc])] at h
      exact Option.noConfusion h
    rw [List.find?_cons_of_neg _ (by simp [dateIs, hx])] at h
    simp [replaceFirst, hx, replaceFirst_append_of_none r xs h]

theorem find?_replaceFirst (r e : Row) :
    ∀ l : List Row, l.find? (dateIs r.date) = some e →
      (replaceFirst l r).find? (dateIs r.date) = some (mergeRow e r)
  | [], h => by simp [List.find?] at h
  | x :: xs, h => by
    by_cases hx : x.date = r.date
    · rw [List.find?_cons_of_pos _ (by simp [dateIs, hx])] at h
      obtain rfl : x = e := by injection h
      simp only [replaceFirst, if_pos hx]
      exact List.find?_cons_of_pos _ (by simp [dateIs, mergeRow_date])
    · rw [List.find?_cons_of_neg _ (by simp [dateIs, hx])] at h
      simp only [replaceFirst, if_neg hx]
      rw [List.find?_cons_of_neg _ (by simp [dateIs, hx])]
      exact find?_replaceFirst r e xs h

theorem replaceFirst_eq_self (r : Row) :
    ∀ (l : List Row) (m : Row), l.find? (dateIs r.date) = some m →
      mergeRow m r = m → replaceFirst l r = l
  | [], m, h, _ => by simp [List.find?] at h
  | x :: xs, m, h, hm => by
    by_cases hx : x.date = r.date
    · rw [List.find?_cons_of_pos _ (by simp [dateIs, hx])] at h
      obtain rfl : x = m := by injection h
      simp [replaceFirst, hx, hm]
    · rw [List.find?_cons_of_neg _ (by simp [dateIs, hx])] at h
      simp [replaceFirst, hx, replaceFirst_eq_self r xs m h hm]

theorem map_date_replaceFirst (r : Row) :
    ∀ l : List Row, (l.find? (dateIs r.date)).isSome = true →
      (replaceFirst l r).map Row.date = l.map Row.date
  | [], h => by simp [List.find?] at h
  | x :: xs, h => by
    by_cases hx : x.date = r.date
    · simp [replaceFirst, hx, mergeRow_date]
    · rw [List.find?_cons_of_neg _ (by simp [dateIs, hx])] at h
      simp [replaceFirst, hx, map_date_replaceFirst r xs h]

theorem waistReplace_append_of_none (today w : String) :
    ∀ l : List Row, l.find? (dateIs today) = none →
      waistReplaceFirst l today w = l ++ [newWaistRow today w]
  | [], _ => rfl
  | x :: xs, h => by
    have hx : ¬ x.date = today := by
      intro hc
      rw [List.find?_cons_of_pos _ (by simp [dateIs, hc])] at h
      exact Option.noConfusion h
    rw [List.find?_cons_of_neg _ (by simp [dateIs, hx])] at h
    simp [waistReplaceFirst, hx, waistReplace_append_of_none today w xs h]

theorem map_date_waistReplace (today w : String) :
    ∀ l : List Row, (l.find? (dateIs today)).isSome = true →
      (waistReplaceFirst l today w).map Row.date = l.map Row.date
  | [], h => by simp [List.find?] at h
  | x :: xs, h => by
    by_cases hx : x.date = today
    · simp [waistReplaceFirst, hx, setWaist]
    · rw [List.find?_cons_of_neg _ (by simp [dateIs, hx])] at h
      simp [waistReplaceFirst, hx, map_date_waistReplace today w xs h]

/-! ## Lemmas: key sets and sortedness of the upserts -/

theorem nodupKeys_sortRows (l : List Row) (h : NodupKeys l) : NodupKeys (sortRows l) := by
  have hp : ((sortRows l).map Row.date).Perm (l.map Row.date) :=
    (List.perm_insertionSort byDate l).map Row.date
  exact hp.nodup_iff.mpr h

theorem nodupKeys_upsertStats (l : List Row) (r : Row) (h : NodupKeys l) :
    NodupKeys (upsertStats l r) := by
  apply nodupKeys_sortRows
  cases hf : l.find? (dateIs r.date) with
  | none =>
    rw [replaceFirst_append_of_none r l hf]
    have hnone := List.find?_eq_none.mp hf
    unfold NodupKeys
    rw [List.map_append, List.nodup_append]
    refine ⟨h, by simp, ?_⟩
    intro a ha hb
    obtain ⟨x, hx, rfl⟩ := List.mem_map.mp ha
    have hxd := hnone x hx
    simp only [List.map_cons, List.map_nil, List.mem_singleton] at hb
    exact hxd (by simp [dateIs, hb])
  | some e =>
    unfold NodupKeys
    rw [map_date_replaceFirst r l (by simp [hf])]
    exact h

theorem nodupKeys_upsertWaist (l : List Row) (today w : String) (h : NodupKeys l) :
    NodupKeys (upsertWaist l today w) := by
  apply nodupKeys_sortRows
  cases hf : l.find? (dateIs today) with
  | none =>
    rw [waistReplace_append_of_none today w l hf]
    have hnone := List.find?_eq_none.mp hf
    unfold NodupKeys
    rw [List.map_append, List.nodup_append]
    refine ⟨h, by simp, ?_⟩
    intro a ha hb
    obtain ⟨x, hx, rfl⟩ := List.mem_map.mp ha
    have hxd := hnone x hx
    simp only [List.map_cons, List.map_nil, List.mem_singleton, newWaistRow] at hb
    exact hxd (by simp [dateIs, hb])
  | some e =>
    unfold NodupKeys
    rw [map_date_waistReplace today w l (by simp [hf])]
    exact h

theorem sorted_applyOp (l : List Row) (op : Op) : List.Sorted byDate (applyOp l op) := by
  cases op with
  | stats r => exact List.sorted_insertionSort byDate _
  | waist today w => exact List.sorted_insertionSort byDate _

theorem nodupKeys_applyOp (l : List Row) (op : Op) (h : NodupKeys l) :
    NodupKeys (applyOp l op) := by
  cases op with
  | stats r => exact nodupKeys_upsertStats l r h
  | waist today w => exact nodupKeys_upsertWaist l today w h

theorem nodupKeys_applyOps : ∀ (ops : List Op) (l : List Row),
    NodupKeys l → NodupKeys (applyOps l ops)
  | [], _, h => h
  | op :: ops, l, h => nodupKeys_applyOps ops (applyOp l op) (nodupKeys_applyOp l op h)

theorem sorted_applyOps : ∀ (ops : List Op) (l : List Row) (op : Op),
    List.Sorted byDate (applyOps l (op :: ops))
  | [], l, op => sorted_applyOp l op
  | op2 :: ops, l, op => sorted_applyOps ops (applyOp l op) op2

/-- `nonBlank` forces the cell to be present. -/
theorem nonBlank_some {o : Option String} (h : nonBlank o = true) : ∃ s, o = some s := by
  cases o with
  | none => simp [nonBlank] at h
  | some s => exact ⟨s, rfl⟩

/-! ## Lemmas: stress fold and extrema of level lists -/

theorem foldl_stressStep (vals : List (Int × Option Int)) :
    ∀ acc : StressOut, vals.foldl stressStep acc =
      ⟨acc.rest + 180 * (vals.countP restSample : Int),
       acc.low + 180 * (vals.countP lowSample : Int),
       acc.med + 180 * (vals.countP medSample : Int),
       acc.high + 180 * (vals.countP highSample : Int)⟩ := by
  induction vals with
  | nil =>
    intro acc
    cases acc
    simp
  | cons v vs ih =>
    intro acc
    rw [List.foldl_cons, ih (stressStep acc v)]
    rcases v with ⟨t, lv⟩
    cases lv with
    | none =>
      simp [stressStep, restSample, lowSample, medSample, highSample,
        List.countP_cons]
    | some l =>
      rcases lt_or_le l 0 with h0 | h0
      · have e1 : stressStep acc (t, some l) = acc := by simp [stressStep, h0]
        have p1 : restSample (t, some l) = false := by simp [restSample]; omega
        have p2 : lowSample (t, some l) = false := by simp [lowSample]; omega
        have p3 : medSample (t, some l) = false := by simp [medSample]; omega
        have p4 : highSample (t, some l) = false := by simp [highSample]; omega
        rw [e1]
        simp [List.countP_cons, p1, p2, p3, p4]
      · have h0n : ¬ l < 0 := not_lt.mpr h0
        rcases le_or_lt l 25 with h25 | h25
        · have e1 : stressStep acc (t, some l) = { acc with rest := acc.rest + 180 } := by
            simp [stressStep, h0n, h25]
          have p1 : restSample (t, some l) = true := by simp [restSample, h0, h25]
          have p2 : lowSample (t, some l) = false := by simp [lowSample]; omega
          have p3 : medSample (t, some l) = false := by simp [medSample]; omega
          have p4 : highSample (t, some l) = false := by simp [highSample]; omega
          rw [e1]
          simp [List.countP_cons, p1, p2, p3, p4, StressOut.mk.injEq]
          ring
        · rcases le_or_lt l 50 with h50 | h50
          · have e1 : stressStep acc (t, some l) = { acc with low := acc.low + 180 } := by
              simp [stressStep, h0n, not_le.mpr h25, h50]
            have p1 : restSample (t, some l) = false := by simp [restSample]; omega
            have p2 : lowSample (t, some l) = true := by
              simp [lowSample]
              omega
            have p3 : medSample (t, some l) = false := by simp [medSample]; omega
            have p4 : highSample (t, some l) = false := by simp [highSample]; omega
            rw [e1]
            simp [List.countP_cons, p1, p2, p3, p4, StressOut.mk.injEq]
            ring
          · rcases le_or_lt l 75 with h75 | h75
            · have e1 : stressStep acc (t, some l) = { acc with med := acc.med + 180 } := by
                simp [stressStep, h0n, not_le.mpr h25, not_le.mpr h50, h75]
              have p1 : restSample (t, some l) = false := by simp [restSample]; omega
              have p2 : lowSample (t, some l) = false := by simp [lowSample]; omega
              have p3 : medSample (t, some l) = true := by
                simp [medSample]
                omega
              have p4 : highSample (t, some l) = false := by simp [highSample]; omega
              rw [e1]
              simp [List.countP_cons, p1, p2, p3, p4, StressOut.mk.injEq]
              ring
            · have e1 : stressStep acc (t, some l) = { acc with high := acc.high + 180 } := by
                simp [stressStep, h0n, not_le.mpr h25, not_le.mpr h50, not_le.mpr h75]
              have p1 : restSample (t, some l) = false := by simp [restSample]; omega
              have p2 : lowSample (t, some l) = false := by simp [lowSample]; omega
              have p3 : medSample (t, some l) = false := by simp [medSample]; omega
              have p4 : highSample (t, some l) = true := by simp [highSample, h75]
              rw [e1]
              simp [List.countP_cons, p1, p2, p3, p4, StressOut.mk.injEq]
              ring

theorem foldl_max_mem : ∀ (xs : List Int) (x : Int), xs.foldl max x ∈ x :: xs
  | [], x => by simp
  | y :: ys, x => by
    simp only [List.foldl_cons]
    have h := foldl_max_mem ys (max x y)
    rcases List.mem_cons.mp h with h1 | h1
    · rcases max_choice x y with hm | hm
      · exact List.mem_cons.mpr (Or.inl (h1.trans hm))
      · exact List.mem_cons.mpr (Or.inr (List.mem_cons.mpr (Or.inl (h1.trans hm))))
    · exact List.mem_cons.mpr (Or.inr (List.mem_cons.mpr (Or.inr h1)))

theorem le_foldl_max : ∀ (xs : List Int) (x : Int),
    x ≤ xs.foldl max x ∧ ∀ l ∈ xs, l ≤ xs.foldl max x
  | [], x => ⟨le_refl x, by simp⟩
  | y :: ys, x => by
    obtain ⟨h1, h2⟩ := le_foldl_max ys (max x y)
    simp only [List.foldl_cons]
    refine ⟨le_trans (le_max_left x y) h1, ?_⟩
    intro l hl
    rcases List.mem_cons.mp hl with rfl | hl
    · exact le_trans (le_max_right x l) h1
    · exact h2 l hl

theorem foldl_min_mem : ∀ (xs : List Int) (x : Int), xs.foldl min x ∈ x :: xs
  | [], x => by simp
  | y :: ys, x => by
    simp only [List.foldl_cons]
    have h := foldl_min_mem ys (min x y)
    rcases List.mem_cons.mp h with h1 | h1
    · rcases min_choice x y with hm | hm
      · exact List.mem_cons.mpr (Or.inl (h1.trans hm))
      · exact List.mem_cons.mpr (Or.inr (List.mem_cons.mpr (Or.inl (h1.trans hm))))
    · exact List.mem_cons.mpr (Or.inr (List.mem_cons.mpr (Or.inr h1)))

theorem foldl_min_le : ∀ (xs : List Int) (x : Int),
    xs.foldl min x ≤ x ∧ ∀ l ∈ xs, xs.foldl min x ≤ l
  | [], x => ⟨le_refl x, by simp⟩
  | y :: ys, x => by
    obtain ⟨h1, h2⟩ := foldl_min_le ys (min x y)
    simp only [List.foldl_cons]
    refine ⟨le_trans h1 (min_le_left x y), ?_⟩
    intro l hl
    rcases List.mem_cons.mp hl with rfl | hl
    · exact le_trans h1 (min_le_right x l)
    · exact h2 l hl

/-! ## Lemmas: the reverse scans of the carry-forward resolvers -/

theorem lastBodyComp_eq_none : ∀ l : List Row,
    (lastBodyComp l = none ↔ ∀ r ∈ l, hasPosWeight r = false)
  | [] => by simp [lastBodyComp]
  | r :: rs => by
    by_cases hr : hasPosWeight r = true
    · simp [lastBodyComp, hr]
    · have hrf : hasPosWeight r = false := by simpa using hr
      simp [lastBodyComp, hrf, lastBodyComp_eq_none rs]

theorem lastBodyComp_eq_some : ∀ (l : List Row) (bc : BodyComp),
    lastBodyComp l = some bc →
      ∃ l1 r l2, l = l1 ++ r :: l2 ∧ (∀ y ∈ l1, hasPosWeight y = false) ∧
        hasPosWeight r = true ∧ bc = bodyCompOfRow r
  | [], bc, h => by simp [lastBodyComp] at h
  | r :: rs, bc, h => by
    by_cases hr : hasPosWeight r = true
    · refine ⟨[], r, rs, rfl, by simp, hr, ?_⟩
      simp [lastBodyComp, hr] at h
      exact h.symm
    · have hrf : hasPosWeight r = false := by simpa using hr
      simp only [lastBodyComp, hrf, Bool.false_eq_true, if_false] at h
      obtain ⟨l1, r2, l2, heq, h1, h2, h3⟩ := lastBodyComp_eq_some rs bc h
      refine ⟨r :: l1, r2, l2, by rw [heq, List.cons_append], ?_, h2, h3⟩
      intro y hy
      rcases List.mem_cons.mp hy with rfl | hy2
      · exact hrf
      · exact h1 y hy2

theorem lastWaistScan_eq_none : ∀ l : List Row,
    (lastWaistScan l = none ↔ ∀ r ∈ l, hasPosWaist r = false)
  | [] => by simp [lastWaistScan]
  | r :: rs => by
    by_cases hr : hasPosWaist r = true
    · simp [lastWaistScan, hr]
    · have hrf : hasPosWaist r = false := by simpa using hr
      simp [lastWaistScan, hrf, lastWaistScan_eq_none rs]

theorem lastWaistScan_eq_some : ∀ (l : List Row) (w : WaistVal),
    lastWaistScan l = some w →
      ∃ l1 r l2, l = l1 ++ r :: l2 ∧ (∀ y ∈ l1, hasPosWaist y = false) ∧
        hasPosWaist r = true ∧ w = waistOfRow r
  | [], w, h => by simp [lastWaistScan] at h
  | r :: rs, w, h => by
    by_cases hr : hasPosWaist r = true
    · refine ⟨[], r, rs, rfl, by simp, hr, ?_⟩
      simp [lastWaistScan, hr] at h
      exact h.symm
    · have hrf : hasPosWaist r = false := by simpa using hr
      simp only [lastWaistScan, hrf, Bool.false_eq_true, if_false] at h
      obtain ⟨l1, r2, l2, heq, h1, h2, h3⟩ := lastWaistScan_eq_some rs w h
      refine ⟨r :: l1, r2, l2, by rw [heq, List.cons_append], ?_, h2, h3⟩
      intro y hy
      rcases List.mem_cons.mp hy with rfl | hy2
      · exact hrf
      · exact h1 y hy2

theorem get_last_bc_latest (rows : List Row) (hsorted : List.Sorted byDate rows)
    (bc : BodyComp) (h : get_last_body_composition rows = some bc) :
    ∃ r, r ∈ rows ∧ hasPosWeight r = true ∧ bc = bodyCompOfRow r ∧
      ∀ r2 ∈ rows, hasPosWeight r2 = true → r2.date ≤ r.date := by
  obtain ⟨l1, r, l2, heq, h1, h2, h3⟩ := lastBodyComp_eq_some rows.reverse bc h
  have hrows : rows = l2.reverse ++ r :: l1.reverse := by
    have h4 := congrArg List.reverse heq
    simpa [List.reverse_append] using h4
  have hpw : List.Pairwise byDate (l2.reverse ++ r :: l1.reverse) := by
    rw [hrows] at hsorted
    exact hsorted
  refine ⟨r, ?_, h2, h3, ?_⟩
  · rw [hrows]
    exact List.mem_append.mpr (Or.inr (List.mem_cons_self r _))
  · intro r2 hr2 hp2
    rw [hrows] at hr2
    rcases List.mem_append.mp hr2 with hA | hB
    · exact (List.pairwise_append.mp hpw).2.2 r2 hA r (List.mem_cons_self r _)
    · rcases List.mem_cons.mp hB with rfl | hB2
      · exact le_refl r2.date
      · rw [h1 r2 (List.mem_reverse.mp hB2)] at hp2
        exact absurd hp2 (by simp)

theorem get_last_waist_latest (rows : List Row) (hsorted : List.Sorted byDate rows)
    (w : WaistVal) (h : get_last_waist rows = some w) :
    ∃ r, r ∈ rows ∧ hasPosWaist r = true ∧ w = waistOfRow r ∧
      ∀ r2 ∈ rows, hasPosWaist r2 = true → r2.date ≤ r.date := by
  obtain ⟨l1, r, l2, heq, h1, h2, h3⟩ := lastWaistScan_eq_some rows.reverse w h
  have hrows : rows = l2.reverse ++ r :: l1.reverse := by
    have h4 := congrArg List.reverse heq
    simpa [List.reverse_append] using h4
  have hpw : List.Pairwise byDate (l2.reverse ++ r :: l1.reverse) := by
    rw [hrows] at hsorted
    exact hsorted
  refine ⟨r, ?_, h2, h3, ?_⟩
  · rw [hrows]
    exact List.mem_append.mpr (Or.inr (List.mem_cons_self r _))
  · intro r2 hr2 hp2
    rw [hrows] at hr2
    rcases List.mem_append.mp hr2 with hA | hB
    · exact (List.pairwise_append.mp hpw).2.2 r2 hA r (List.mem_cons_self r _)
    · rcases List.mem_cons.mp hB with rfl | hB2
      · exact le_refl r2.date
      · rw [h1 r2 (List.mem_reverse.mp hB2)] at hp2
        exact absurd hp2 (by simp)

/-! ## Claim theorems -/

/-- C1: if the ledger already contains a row at date key d (the row the
upsert loop finds) whose waist cells are non-empty, then upserting a
new row for d whose waist cells are empty stores a row at d whose waist
cells equal the prior row's; likewise, when the existing row's weightKg
is non-empty (and its companion body-composition keys are present, as
every row this system writes has them), the stored row keeps the
existing row's weightKg, weightLbs, bodyFatPercent, bodyWaterPercent,
muscleMassKg and bodyCompDate. -/
theorem upsert_preserves_slow_fields (rows : List Row) (r e : Row)
    (hfind : rows.find? (dateIs r.date) = some e)
    (hwiNew : r.waistInches = some "") (hwdNew : r.waistDate = some "")
    (hwkNew : r.weightKg = some "") (hlbNew : r.weightLbs = some "")
    (hbfNew : r.bodyFatPercent = some "") (hbwNew : r.bodyWaterPercent = some "")
    (hmmNew : r.muscleMassKg = some "") (hbcNew : r.bodyCompDate = some "") :
    (upsertStats rows r).find? (dateIs r.date) = some (mergeRow e r) ∧
    (nonBlank e.waistInches = true → nonBlank e.waistDate = true →
      (mergeRow e r).waistInches = e.waistInches ∧
      (mergeRow e r).waistDate = e.waistDate) ∧
    (nonBlank e.weightKg = true →
      e.weightLbs.isSome = true → e.bodyFatPercent.isSome = true →
      e.bodyWaterPercent.isSome = true → e.muscleMassKg.isSome = true →
      e.bodyCompDate.isSome = true →
      (mergeRow e r).weightKg = e.weightKg ∧
      (mergeRow e r).weightLbs = e.weightLbs ∧
      (mergeRow e r).bodyFatPercent = e.bodyFatPercent ∧
      (mergeRow e r).bodyWaterPercent = e.bodyWaterPercent ∧
      (mergeRow e r).muscleMassKg = e.muscleMassKg ∧
      (mergeRow e r).bodyCompDate = e.bodyCompDate) := by
  refine ⟨?_, ?_, ?_⟩
  · simp only [upsertStats]
    rw [find?_sortRows]
    exact find?_replaceFirst r e rows hfind
  · intro h1 h2
    obtain ⟨wd, hwd⟩ := nonBlank_some h2
    by_cases hk : nonBlank e.weightKg = true <;>
      simp [mergeRow, mergeWaist, h1, hk, hwd]
  · intro hk h3 h4 h5 h6 h7
    obtain ⟨lb, hlb⟩ := Option.isSome_iff_exists.mp h3
    obtain ⟨bf, hbf⟩ := Option.isSome_iff_exists.mp h4
    obtain ⟨bw, hbw⟩ := Option.isSome_iff_exists.mp h5
    obtain ⟨mm, hmm⟩ := Option.isSome_iff_exists.mp h6
    obtain ⟨bc, hbc⟩ := Option.isSome_iff_exists.mp h7
    simp [mergeRow, hk, hlb, hbf, hbw, hmm, hbc]

/-- Witness for C1 at a concrete ledger: the stored row for 2024-01-05
keeps the prior waist pair and the prior body-composition columns. -/
theorem upsert_preserves_slow_fields_witness :
    ([demoExistingRow].find? (dateIs demoEmptyRow.date) = some demoExistingRow) ∧
    ((upsertStats [demoExistingRow] demoEmptyRow).find? (dateIs demoEmptyRow.date) =
        some (mergeRow demoExistingRow demoEmptyRow) ∧
      (mergeRow demoExistingRow demoEmptyRow).waistInches = demoExistingRow.waistInches ∧
      (mergeRow demoExistingRow demoEmptyRow).waistDate = demoExistingRow.waistDate ∧
      (mergeRow demoExistingRow demoEmptyRow).weightKg = demoExistingRow.weightKg ∧
      (mergeRow demoExistingRow demoEmptyRow).bodyCompDate = demoExistingRow.bodyCompDate) := by
  have h := upsert_preserves_slow_fields [demoExistingRow] demoEmptyRow demoExistingRow
    (by decide) rfl rfl rfl rfl rfl rfl rfl rfl
  obtain ⟨hf, hw, hb⟩ := h
  have hw2 := hw (by decide) (by decide)
  have hb2 := hb (by decide) (by decide) (by decide) (by decide) (by decide) (by decide)
  exact ⟨by decide, hf, hw2.1, hw2.2, hb2.1, hb2.2.2.2.2.2⟩

/-- C2: starting from any ledger with pairwise-distinct date keys,
after any nonempty sequence of upserts (stats upsert or waist upsert)
in any order, the stored row sequence is sorted ascending by date key
and contains at most one row per date key. -/
theorem upsert_sort_invariant (L : List Row) (hN : NodupKeys L) (op : Op)
    (ops : List Op) :
    List.Sorted (· ≤ ·) ((applyOps L (op :: ops)).map Row.date) ∧
    NodupKeys (applyOps L (op :: ops)) := by
  constructor
  · exact List.pairwise_map.mpr (sorted_applyOps ops L op)
  · exact nodupKeys_applyOps (op :: ops) L hN

/-- Witness for C2: a waist upsert followed by a stats upsert on the
empty ledger yields a date-sorted, duplicate-free ledger. -/
theorem upsert_sort_invariant_witness :
    NodupKeys ([] : List Row) ∧
    (List.Sorted (· ≤ ·)
        ((applyOps [] (Op.waist "2024-01-02" "32.5" :: [Op.stats demoStatsRow])).map Row.date) ∧
      NodupKeys (applyOps [] (Op.waist "2024-01-02" "32.5" :: [Op.stats demoStatsRow]))) :=
  ⟨by simp [NodupKeys], upsert_sort_invariant [] (by simp [NodupKeys])
    (Op.waist "2024-01-02" "32.5") [Op.stats demoStatsRow]⟩

/-- C7: upserting the same fully-specified row for a date twice in a
row, with no other change to the ledger between the calls, leaves the
ledger after the second call identical to the ledger after the first
call. -/
theorem upsert_idempotent (L : List Row) (r : Row) (h : fullySpec r = true) :
    upsertStats (upsertStats L r) r = upsertStats L r := by
  have hsorted : List.Sorted byDate (upsertStats L r) :=
    List.sorted_insertionSort byDate _
  obtain ⟨m, hm, hmm⟩ : ∃ m, (upsertStats L r).find? (dateIs r.date) = some m ∧
      mergeRow m r = m := by
    cases hf : L.find? (dateIs r.date) with
    | none =>
      refine ⟨r, ?_, mergeRow_self r h⟩
      simp only [upsertStats]
      rw [find?_sortRows, replaceFirst_append_of_none r L hf, List.find?_append, hf]
      simp [List.find?, dateIs]
    | some e =>
      refine ⟨mergeRow e r, ?_, mergeRow_idem e r h⟩
      simp only [upsertStats]
      rw [find?_sortRows]
      exact find?_replaceFirst r e L hf
  have hstep : upsertStats (upsertStats L r) r =
      sortRows (replaceFirst (upsertStats L r) r) := rfl
  rw [hstep, replaceFirst_eq_self r (upsertStats L r) m hm hmm]
  exact hsorted.insertionSort_eq

/-- Witness for C7: double upsert of a concrete fully-specified row
into the empty ledger. -/
theorem upsert_idempotent_witness :
    fullySpec demoStatsRow = true ∧
    upsertStats (upsertStats [] demoStatsRow) demoStatsRow =
      upsertStats [] demoStatsRow :=
  ⟨by decide, upsert_idempotent [] demoStatsRow (by decide)⟩

/-- C3 counterexample: on a payload whose daily-sleep DTO has no direct
stage fields but whose interval list carries 600 seconds of deep sleep,
the code reports all stages 0 while the spec's try-direct-then-sum
fallback reports deep = 600 — the claimed interval-summation fallback
does not exist in the code. -/
theorem sleep_no_fallback_cex :
    sleepStages sleepCexPayload = ⟨0, 0, 0, 0⟩ ∧
    sleepStagesSpec sleepCexPayload = ⟨600, 0, 0, 0⟩ ∧
    sleepStages sleepCexPayload ≠ sleepStagesSpec sleepCexPayload := by
  refine ⟨rfl, by decide, by decide⟩

/-- C3 amended: the normalizer reads the sleep-stage durations from the
direct fields of the nested daily-sleep sub-object, treating an absent
field as 0; the payload's intervals are never consulted (payloads with
identical DTOs normalize identically), so there is no fallback. -/
theorem sleep_direct_fields_only (p q : SleepPayload)
    (hdto : p.dailySleepDTO = q.dailySleepDTO) :
    sleepStages p = sleepStages q ∧
    ∀ dto, p.dailySleepDTO = some dto →
      sleepStages p = ⟨orZero dto.deepSleepSeconds, orZero dto.lightSleepSeconds,
        orZero dto.remSleepSeconds, orZero dto.awakeSleepSeconds⟩ := by
  constructor
  · simp [sleepStages, hdto]
  · intro dto hd
    simp [sleepStages, hd]

/-- Witness for C3's amended theorem: a payload with direct fields and
a stray interval normalizes like the interval-free payload, to the
direct values. -/
theorem sleep_direct_fields_only_witness :
    sleepDirectPayload.dailySleepDTO = sleepDirectPayloadNoIv.dailySleepDTO ∧
    sleepStages sleepDirectPayload = sleepStages sleepDirectPayloadNoIv ∧
    sleepStages sleepDirectPayload = ⟨3600, 7200, 5400, 600⟩ := by
  have h := sleep_direct_fields_only sleepDirectPayload sleepDirectPayloadNoIv rfl
  exact ⟨rfl, h.1, h.2 ⟨some 3600, some 7200, some 5400, some 600⟩ rfl⟩

/-- C4 counterexample: on the series [[t0,100],[t1,null]] the non-null
levels are exactly [100], so the claim demands lowest = 100 and current
= the (null) last pair's level; the code reports lowest = 0 (the
sentinel reset fires although the series is nonempty) and current = 100
(the last non-null level). -/
theorem body_battery_cex :
    bbLevels bbCex = [100] ∧
    normBodyBattery bbCex = ⟨100, 100, 0, 0, 0⟩ ∧
    (normBodyBattery bbCex).lowest ≠ 100 := by
  refine ⟨rfl, by decide, by decide⟩

/-- C4 amended: highest is the maximum of the non-null levels and
current is the last non-null level; lowest is the minimum of the
non-null levels unless that minimum equals 100, in which case lowest is
reported as 0; an empty series (or one with no non-null level) yields
highest = lowest = current = 0. -/
theorem body_battery_amended (bb : List BBSnap) :
    (bbLevels bb = [] →
      (normBodyBattery bb).highest = 0 ∧ (normBodyBattery bb).lowest = 0 ∧
      (normBodyBattery bb).current = 0) ∧
    (bbLevels bb ≠ [] →
      ((normBodyBattery bb).highest ∈ bbLevels bb ∧
        ∀ l ∈ bbLevels bb, l ≤ (normBodyBattery bb).highest) ∧
      (∃ m, m ∈ bbLevels bb ∧ (∀ l ∈ bbLevels bb, m ≤ l) ∧
        (normBodyBattery bb).lowest = if m = 100 then 0 else m) ∧
      (bbLevels bb).getLast? = some (normBodyBattery bb).current) := by
  constructor
  · intro h
    simp [normBodyBattery, h]
  · intro h
    obtain ⟨x, xs, hx⟩ : ∃ x xs, bbLevels bb = x :: xs := by
      cases hb : bbLevels bb with
      | nil => exact absurd hb h
      | cons a as => exact ⟨a, as, rfl⟩
    have hhi : (normBodyBattery bb).highest = xs.foldl max x := by
      simp [normBodyBattery, hx]
    have hlo : (normBodyBattery bb).lowest =
        if xs.foldl min x = 100 then 0 else xs.foldl min x := by
      simp [normBodyBattery, hx]
    have hcur : (normBodyBattery bb).current =
        (x :: xs).getLast (List.cons_ne_nil x xs) := by
      simp [normBodyBattery, hx]
    refine ⟨⟨?_, ?_⟩, ⟨xs.foldl min x, ?_, ?_, hlo⟩, ?_⟩
    · rw [hhi, hx]
      exact foldl_max_mem xs x
    · intro l hl
      rw [hx] at hl
      rw [hhi]
      rcases List.mem_cons.mp hl with rfl | hl2
      · exact (le_foldl_max xs l).1
      · exact (le_foldl_max xs x).2 l hl2
    · rw [hx]
      exact foldl_min_mem xs x
    · intro l hl
      rw [hx] at hl
      rcases List.mem_cons.mp hl with rfl | hl2
      · exact (foldl_min_le xs l).1
      · exact (foldl_min_le xs x).2 l hl2
    · rw [hx, hcur, List.getLast?_eq_getLast]

/-- Witness for C4's amended theorem at the series
[[t0,20],[t1,80],[t2,55]]: highest is one of the levels and bounds them
all, and current is the last level. -/
theorem body_battery_amended_witness :
    bbLevels bbExample ≠ [] ∧
    ((normBodyBattery bbExample).highest ∈ bbLevels bbExample ∧
      (bbLevels bbExample).getLast? = some (normBodyBattery bbExample).current) ∧
    normBodyBattery bbExample = ⟨55, 80, 20, 0, 0⟩ := by
  have h := (body_battery_amended bbExample).2 (by decide)
  exact ⟨by decide, ⟨h.1.1, h.2.2⟩, by decide⟩

/-- C5: every stress sample with a non-null, non-negative level adds
exactly 180 seconds to exactly one bucket (rest ≤ 25, low 26-50, medium
51-75, high > 75) and null/negative samples add nothing, so each bucket
equals 180 times the number of its samples; the synthetic series of 10
samples at level 10 and 10 at level 90 yields rest = high = 1800 and
low = medium = 0. -/
theorem stress_bucketing :
    (∀ vals : List (Int × Option Int),
      stressBuckets vals =
        ⟨180 * (vals.countP restSample : Int), 180 * (vals.countP lowSample : Int),
         180 * (vals.countP medSample : Int), 180 * (vals.countP highSample : Int)⟩) ∧
    stressBuckets stressSynthetic = ⟨1800, 0, 0, 1800⟩ := by
  constructor
  · intro vals
    rw [stressBuckets, foldl_stressStep vals ⟨0, 0, 0, 0⟩]
    simp
  · decide

/-- C8 counterexample: with the blob PUT failing, get_stats still
answers HTTP 200 with the same computed record as when the write
succeeds — the operation's result does not distinguish write-failed
from write-succeeded. -/
theorem stats_write_failure_cex :
    write_csv_to_blob ⟨true, false⟩ = false ∧
    write_csv_to_blob ⟨true, true⟩ = true ∧
    (get_stats_persist [] demoStatsRow ⟨true, false⟩).status =
      (get_stats_persist [] demoStatsRow ⟨true, true⟩).status ∧
    (get_stats_persist [] demoStatsRow ⟨true, false⟩).body =
      (get_stats_persist [] demoStatsRow ⟨true, true⟩).body ∧
    (get_stats_persist [] demoStatsRow ⟨true, false⟩).status = 200 :=
  ⟨rfl, rfl, rfl, rfl, rfl⟩

/-- C8 amended: when the ledger write fails during the daily stats
operation the freshly computed report is still returned, but the
failure is not surfaced: the write result is discarded and the
operation answers HTTP 200 with the same body in both cases; only the
stored blob differs (a failed write leaves it unchanged). -/
theorem stats_write_result_ignored (stored : List Row) (csv_row : Row)
    (tok : Bool) (env env2 : BlobEnv) :
    (get_stats_persist stored csv_row env).status = 200 ∧
    (get_stats_persist stored csv_row env).body = csv_row ∧
    (get_stats_persist stored csv_row env).status =
      (get_stats_persist stored csv_row env2).status ∧
    (get_stats_persist stored csv_row env).body =
      (get_stats_persist stored csv_row env2).body ∧
    (get_stats_persist stored csv_row ⟨tok, false⟩).stored = stored := by
  refine ⟨rfl, rfl, rfl, rfl, ?_⟩
  cases tok <;> rfl

/-- C9: when the nested hrvSummary is absent or empty and the legacy
top-level fields are absent or empty (in particular for the empty
payload left by a failed HRV fetch), the record reports hrv.average = 0,
hrv.status = '', hrvBalanced = 1 and hrvUnbalanced = 0 — the default
average 0 lies inside the degenerate default baseline interval [0,0]. -/
theorem hrv_default_balanced (p : HrvPayload)
    (h1 : p.hrvSummary = none)
    (h2 : orZero p.lastNightAvg = 0)
    (h3 : orEmpty p.status = "")
    (h4 : orZero ((p.baseline.getD ⟨none, none⟩).balancedLow) = 0)
    (h5 : orZero ((p.baseline.getD ⟨none, none⟩).balancedHigh) = 0) :
    normHrv p = ⟨0, "", 1, 0⟩ := by
  simp [normHrv, h1, h2, h3, h4, h5]

/-- Witness for C9: the empty HRV payload. -/
theorem hrv_default_balanced_witness :
    (⟨none, none, none, none, none⟩ : HrvPayload).hrvSummary = none ∧
    normHrv ⟨none, none, none, none, none⟩ = ⟨0, "", 1, 0⟩ :=
  ⟨rfl, hrv_default_balanced ⟨none, none, none, none, none⟩ rfl rfl rfl rfl rfl⟩

/-- C10: a waist request whose inches value parses to a number ≤ 0 is
answered with HTTP 400 before any blob access: no ledger read and no
ledger write happen, and the stored ledger is unchanged. -/
theorem save_waist_rejects_nonpositive (inches : ℚ) (today : String)
    (stored : List Row) (env : BlobEnv) (h : inches ≤ 0) :
    save_waist inches today stored env = (WaistResp.err 400, []) ∧
    finalStore stored (save_waist inches today stored env).2 = stored := by
  have hs : save_waist inches today stored env = (WaistResp.err 400, []) := by
    simp [save_waist, h]
  refine ⟨hs, ?_⟩
  rw [hs]
  rfl

/-- C6: on a date-sorted, well-formed ledger the body-composition
carry-forward resolver returns none exactly when no row has a present,
positive weight, and otherwise returns the parsed values and recorded
source date (bodyCompDate, falling back to the row date when that cell
is absent) of a matching row of maximal date; the waist resolver
behaves analogously on waistInches/waistDate; in particular the
one-row history { date: 2024-01-01, weightKg: 70.2 } resolves to
weight 70.2 with date 2024-01-01. -/
theorem carry_forward_resolvers (rows : List Row)
    (hwf : ∀ r ∈ rows, bcWF r = true ∧ waistWF r = true)
    (hsorted : List.Sorted byDate rows) :
    (get_last_body_composition rows = none ↔ ∀ r ∈ rows, hasPosWeight r = false) ∧
    (∀ bc, get_last_body_composition rows = some bc →
      ∃ r, r ∈ rows ∧ hasPosWeight r = true ∧ bc = bodyCompOfRow r ∧
        ∀ r2 ∈ rows, hasPosWeight r2 = true → r2.date ≤ r.date) ∧
    (get_last_waist rows = none ↔ ∀ r ∈ rows, hasPosWaist r = false) ∧
    (∀ w, get_last_waist rows = some w →
      ∃ r, r ∈ rows ∧ hasPosWaist r = true ∧ w = waistOfRow r ∧
        ∀ r2 ∈ rows, hasPosWaist r2 = true → r2.date ≤ r.date) ∧
    get_last_body_composition [demoHistoryRow] =
      some ⟨70.2, 0, 0, 0, 0, "2024-01-01"⟩ := by
  have hbr : (70.2 : ℚ) = mkRat 702 10 := by
    rw [Rat.mkRat_eq_div]
    norm_num
  refine ⟨?_, ?_, ?_, ?_, by rw [hbr]; decide⟩
  · rw [get_last_body_composition, lastBodyComp_eq_none]
    constructor
    · intro h r hr
      exact h r (List.mem_reverse.mpr hr)
    · intro h r hr
      exact h r (List.mem_reverse.mp hr)
  · intro bc hbc
    exact get_last_bc_latest rows hsorted bc hbc
  · rw [get_last_waist, lastWaistScan_eq_none]
    constructor
    · intro h r hr
      exact h r (List.mem_reverse.mpr hr)
    · intro h r hr
      exact h r (List.mem_reverse.mp hr)
  · intro w hw
    exact get_last_waist_latest rows hsorted w hw

/-- Witness for C6: the spec's one-row carry-forward example. -/
theorem carry_forward_resolvers_witness :
    (∀ r ∈ [demoHistoryRow], bcWF r = true ∧ waistWF r = true) ∧
    List.Sorted byDate [demoHistoryRow] ∧
    get_last_body_composition [demoHistoryRow] =
      some ⟨70.2, 0, 0, 0, 0, "2024-01-01"⟩ := by
  have h := carry_forward_resolvers [demoHistoryRow] (by decide)
    (List.sorted_singleton demoHistoryRow)
  exact ⟨by decide, List.sorted_singleton demoHistoryRow, h.2.2.2.2⟩

/-- Witness for C10: a zero measurement against a nonempty stored
ledger and a healthy blob store. -/
theorem save_waist_rejects_nonpositive_witness :
    (0 : ℚ) ≤ 0 ∧
    save_waist 0 "2024-01-05" [demoExistingRow] ⟨true, true⟩ =
      (WaistResp.err 400, []) ∧
    finalStore [demoExistingRow]
      (save_waist 0 "2024-01-05" [demoExistingRow] ⟨true, true⟩).2 =
      [demoExistingRow] := by
  have h := save_waist_rejects_nonpositive 0 "2024-01-05" [demoExistingRow]
    ⟨true, true⟩ le_rfl
  exact ⟨le_rfl, h.1, h.2⟩

end Garmin
